import Mathlib

/-!
Verification of the voicebot repository's retrieval, parsing and handler logic.

The definitions below are a shallow embedding of the JavaScript source:
  - `src/api/chat.js` (the HF-backed chat handler and its simple `buildContext`),
  - the TTS handlers and the Gemini-backed chat handler with the `maxChunks`
    variant of `buildContext` (the unnamed source parts).

Strings are modelled as `List Char` (`Str`).  JavaScript's ASCII-relevant
string operations (`toLowerCase`, `split(/\W+/)`, `includes`, global
`replace`, `trim`, `slice`) are modelled character-by-character; `Set`
deduplication by object identity is modelled by tagging knowledge-base items
with their position index (distinct objects get distinct tags).
-/

set_option maxRecDepth 8000

abbrev Str := List Char

/-- Left and right curly brace characters, written via code points. -/
def lbrace : Char := Char.ofNat 123

def rbrace : Char := Char.ofNat 125

/-- ASCII lowercasing of one character, modelling `String.prototype.toLowerCase`
on the ASCII inputs this repository handles. -/
def lowerChar (c : Char) : Char :=
  if 'A' ≤ c ∧ c ≤ 'Z' then Char.ofNat (c.toNat + 32) else c

/-- Lowercase a whole string. -/
def lowerStr (s : Str) : Str := s.map lowerChar

/-- Word characters, the class `\w` of JavaScript regexes: `[A-Za-z0-9_]`. -/
def isWordChar (c : Char) : Bool :=
  (('a' ≤ c ∧ c ≤ 'z') ∨ ('A' ≤ c ∧ c ≤ 'Z') ∨ ('0' ≤ c ∧ c ≤ '9') ∨ c = '_' : Bool)

/-- Whitespace stripped by `String.prototype.trim` (ASCII part). -/
def isWS (c : Char) : Bool :=
  (c = ' ' ∨ c = '\t' ∨ c = '\n' ∨ c = '\r' ∨ c = Char.ofNat 11 ∨ c = Char.ofNat 12 : Bool)

/-- Does `s` start with `pat`?  Models anchored literal matching. -/
def startsWithL : Str → Str → Bool
  | _, [] => true
  | [], _ :: _ => false
  | c :: cs, p :: ps => c = p && startsWithL cs ps

/-- Does `pat` occur as a contiguous substring of `s`?  Models
`String.prototype.includes` with a literal argument. -/
def containsSub : Str → Str → Bool
  | [], pat => startsWithL [] pat
  | c :: cs, pat => startsWithL (c :: cs) pat || containsSub cs pat

/-- Fuel-indexed worker for `replaceAll`; the fuel dominates the input length,
and each step consumes one unit of fuel and at least one character. -/
def replaceAllAux (pat rep : Str) : Nat → Str → Str
  | 0, s => s
  | Nat.succ _, [] => []
  | Nat.succ f, c :: cs =>
    if startsWithL (c :: cs) pat ∧ pat ≠ [] then
      rep ++ replaceAllAux pat rep f (List.drop (pat.length - 1) cs)
    else
      c :: replaceAllAux pat rep f cs

/-- Global, left-to-right, non-overlapping replacement of the literal `pat` by
`rep`, modelling `String.prototype.replace(/pat/g, rep)`.  The replacement text
is not rescanned.  (The source only ever uses non-empty literal patterns.) -/
def replaceAll (pat rep : Str) (s : Str) : Str := replaceAllAux pat rep s.length s

/-- `String.prototype.trim`: drop whitespace from both ends. -/
def trimStr (s : Str) : Str :=
  ((s.dropWhile isWS).reverse.dropWhile isWS).reverse

/-- Accumulator for `tokenize`: split into maximal runs of word characters. -/
def tokenizeAux : Str → Str → List Str
  | [], acc => if acc = [] then [] else [acc.reverse]
  | c :: cs, acc =>
    if isWordChar c then tokenizeAux cs (c :: acc)
    else if acc = [] then tokenizeAux cs [] else acc.reverse :: tokenizeAux cs []

/-- `q.split(/\W+/).filter(Boolean)`: the maximal runs of word characters. -/
def tokenize (s : Str) : List Str := tokenizeAux s []

/-- Accumulator for `dedupFirst`; `seen` records already-emitted elements. -/
def dedupFirstAux [DecidableEq α] (seen : List α) : List α → List α
  | [] => []
  | x :: xs =>
    if x ∈ seen then dedupFirstAux seen xs else x :: dedupFirstAux (x :: seen) xs

/-- Deduplication keeping the first occurrence of each element, in order:
models iteration order of a JavaScript `Set` built from a list. -/
def dedupFirst [DecidableEq α] (l : List α) : List α := dedupFirstAux [] l

/-- Does any of the literal alternatives occur in `q`?  All canned-response
regexes in the source are alternations of literal strings, so `re.test(q)`
is exactly this. -/
def anyAlt (alts : List Str) (q : Str) : Bool := alts.any (fun a => containsSub q a)

/-! ## The speech-text sanitizer (TTS handler, cleaning variant)

The handler runs, in order, global removals of "```json", "```", "{", "}",
"\"answer\":", "Confidence: low", then replaces literal backslash-n by a
space, then trims. -/

/-- The seven patterns removed (the last is replaced by a space). -/
def patFence : Str := "```json".toList

def patTicks : Str := "```".toList

def patLB : Str := [lbrace]

def patRB : Str := [rbrace]

def patAnswer : Str := "\"answer\":".toList

def patConf : Str := "Confidence: low".toList

def patBackslashN : Str := ['\\', 'n']

/-- The speech-text sanitizer of the TTS handler (cleaning variant): the fixed
ordered sequence of global substring removals followed by `trim`. -/
def cleanText (s : Str) : Str :=
  trimStr
    (replaceAll patBackslashN [' ']
      (replaceAll patConf []
        (replaceAll patAnswer []
          (replaceAll patRB []
            (replaceAll patLB []
              (replaceAll patTicks []
                (replaceAll patFence [] s)))))))

/-! ## JavaScript values and `JSON.parse`

The model-response parser calls `JSON.parse` on a brace-delimited substring
and then applies ad-hoc coercions to the resulting value.  `Js` models the
values such a parse can yield.  The parser below models `JSON.parse`
restricted to integer numerals (no fractional or exponent parts; the claims
under verification never involve non-integer numbers) and to the common
escape sequences. -/

inductive Js where
  | null : Js
  | bool : Bool → Js
  | num : Int → Js
  | str : Str → Js
  | arr : List Js → Js
  | obj : List (Str × Js) → Js

/-- JavaScript truthiness of a possibly-undefined value (`none` = undefined). -/
def jsTruthy : Option Js → Bool
  | none => false
  | some .null => false
  | some (.bool b) => b
  | some (.num n) => (n ≠ 0 : Bool)
  | some (.str s) => (s ≠ [] : Bool)
  | some (.arr _) => true
  | some (.obj _) => true

/-- Decimal digits of a natural number. -/
def natToStr (n : Nat) : Str :=
  if h : n < 10 then [Char.ofNat (48 + n)]
  else natToStr (n / 10) ++ [Char.ofNat (48 + n % 10)]
decreasing_by
  exact Nat.div_lt_self (by omega) (by omega)

/-- Decimal rendering of an integer. -/
def intToStr (i : Int) : Str :=
  if i < 0 then '-' :: natToStr i.natAbs else natToStr i.toNat

mutual

/-- The JavaScript `String(v)` conversion for parsed JSON values. -/
def jsToString : Js → Str
  | .null => "null".toList
  | .bool true => "true".toList
  | .bool false => "false".toList
  | .num n => intToStr n
  | .str s => s
  | .arr xs => arrToString xs
  | .obj _ => "[object Object]".toList

/-- `Array.prototype.toString`: elements joined by commas, `null` rendered
as the empty string. -/
def arrToString : List Js → Str
  | [] => []
  | x :: xs =>
    let e := match x with
      | .null => []
      | v => jsToString v
    match xs with
    | [] => e
    | _ :: _ => e ++ ',' :: arrToString xs

end

/-- Property access on an object, last-written key wins (as `JSON.parse`
resolves duplicate keys); `none` is JavaScript's `undefined`. -/
def getLast (key : Str) : List (Str × Js) → Option Js
  | [] => none
  | (k, v) :: rest =>
    match getLast key rest with
    | some r => some r
    | none => if k = key then some v else none

/-- `v.key` for a parsed JSON value: field lookup on objects, `undefined`
otherwise. -/
def jsGet (v : Js) (key : Str) : Option Js :=
  match v with
  | .obj fs => getLast key fs
  | _ => none

/-- JSON whitespace. -/
def isJsonWS (c : Char) : Bool := (c = ' ' ∨ c = '\t' ∨ c = '\n' ∨ c = '\r' : Bool)

def skipWS (s : Str) : Str := s.dropWhile isJsonWS

/-- Body of a JSON string after the opening quote: returns the decoded
characters and the remainder after the closing quote. -/
def parseStringBody : Str → Option (Str × Str)
  | [] => none
  | c :: cs =>
    if c = '"' then some ([], cs)
    else if c = '\\' then
      match cs with
      | [] => none
      | e :: cs' =>
        let dec : Option Char :=
          if e = '"' then some '"'
          else if e = '\\' then some '\\'
          else if e = '/' then some '/'
          else if e = 'n' then some '\n'
          else if e = 't' then some '\t'
          else if e = 'r' then some '\r'
          else if e = 'b' then some (Char.ofNat 8)
          else if e = 'f' then some (Char.ofNat 12)
          else none
        match dec with
        | some d => (parseStringBody cs').map (fun r => (d :: r.1, r.2))
        | none => none
    else (parseStringBody cs).map (fun r => (c :: r.1, r.2))

def digitsVal (l : Str) : Nat := l.foldl (fun a c => a * 10 + (c.toNat - 48)) 0

/-- An integer JSON numeral; fails when a fraction or exponent follows. -/
def parseNum (s : Str) : Option (Js × Str) :=
  let p := match s with
    | c :: cs => if c = '-' then (true, cs) else (false, s)
    | [] => (false, s)
  let ds := p.2.takeWhile Char.isDigit
  let rest := p.2.dropWhile Char.isDigit
  if ds = [] then none
  else
    let v : Int := if p.1 then -(digitsVal ds : Int) else (digitsVal ds : Int)
    match rest with
    | c :: _ => if c = '.' ∨ c = 'e' ∨ c = 'E' then none else some (.num v, rest)
    | [] => some (.num v, rest)

mutual

/-- Fuel-indexed recursive-descent JSON value parser. -/
def parseVal : Nat → Str → Option (Js × Str)
  | 0, _ => none
  | Nat.succ f, s₀ =>
    match skipWS s₀ with
    | [] => none
    | c :: cs =>
      if c = lbrace then
        match skipWS cs with
        | d :: ds =>
          if d = rbrace then some (.obj [], ds)
          else
            match parseFieldList f (d :: ds) with
            | some (fs, rest) => some (.obj fs, rest)
            | none => none
        | [] => none
      else if c = '[' then
        match skipWS cs with
        | d :: ds =>
          if d = ']' then some (.arr [], ds)
          else
            match parseElemList f (d :: ds) with
            | some (es, rest) => some (.arr es, rest)
            | none => none
        | [] => none
      else if c = '"' then
        match parseStringBody cs with
        | some (s1, rest) => some (.str s1, rest)
        | none => none
      else if startsWithL (c :: cs) "null".toList then some (.null, (c :: cs).drop 4)
      else if startsWithL (c :: cs) "true".toList then some (.bool true, (c :: cs).drop 4)
      else if startsWithL (c :: cs) "false".toList then some (.bool false, (c :: cs).drop 5)
      else parseNum (c :: cs)

/-- Comma-separated array elements up to the closing bracket. -/
def parseElemList : Nat → Str → Option (List Js × Str)
  | 0, _ => none
  | Nat.succ f, s =>
    match parseVal f s with
    | some (v, rest) =>
      match skipWS rest with
      | c :: cs =>
        if c = ',' then
          match parseElemList f cs with
          | some (es, r2) => some (v :: es, r2)
          | none => none
        else if c = ']' then some ([v], cs)
        else none
      | [] => none
    | none => none

/-- Comma-separated `"key": value` fields up to the closing brace. -/
def parseFieldList : Nat → Str → Option (List (Str × Js) × Str)
  | 0, _ => none
  | Nat.succ f, s =>
    match skipWS s with
    | c :: cs =>
      if c = '"' then
        match parseStringBody cs with
        | some (key, rest) =>
          match skipWS rest with
          | d :: ds =>
            if d = ':' then
              match parseVal f ds with
              | some (v, r2) =>
                match skipWS r2 with
                | e :: es =>
                  if e = ',' then
                    match parseFieldList f es with
                    | some (fs, r3) => some ((key, v) :: fs, r3)
                    | none => none
                  else if e = rbrace then some ([(key, v)], es)
                  else none
                | [] => none
              | none => none
            else none
          | [] => none
        | none => none
      else none
    | [] => none

end

/-- `JSON.parse` on a whole string: a single value with only whitespace after. -/
def jsParse (s : Str) : Option Js :=
  match parseVal (2 * s.length + 2) s with
  | some (v, rest) => if skipWS rest = [] then some v else none
  | none => none

/-- The match of `/\{[\s\S]*\}/`: from the first left brace to the last right
brace, provided the latter comes after the former. -/
def extractBraced (s : Str) : Option Str :=
  match s.findIdx? (fun c => c = lbrace), s.reverse.findIdx? (fun c => c = rbrace) with
  | some i, some rj =>
    let j := s.length - 1 - rj
    if i < j then some ((s.drop i).take (j - i + 1)) else none
  | _, _ => none

/-! ## The model-response parser (shared tail of both chat handlers)

Models chat handler lines: extract `/\{[\s\S]*\}/`, `JSON.parse` it, coerce
`answer`/`sources`/`confidence`, truncate the answer to 2000 characters; on
any failure fall back to the raw trimmed text (or a fixed message when that
is empty) with low confidence and no sources. -/

/-- The JSON envelope a chat handler returns with status 200. -/
structure ChatResp where
  answer : Str
  confidence : Str
  sources : List Js

/-- `"I don't have verified information in my sources."` -/
def noInfoMsg : Str := "I don\x27t have verified information in my sources.".toList

def keyAnswer : Str := "answer".toList

def keySources : Str := "sources".toList

def keyConfidence : Str := "confidence".toList

def levelHigh : Str := "high".toList

def levelMedium : Str := "medium".toList

def levelLow : Str := "low".toList

/-- The three allowed confidence levels. -/
def threeLevels : List Str := [levelHigh, levelMedium, levelLow]

/-- `typeof parsed.answer === 'string' ? parsed.answer : String(parsed.answer || '')`. -/
def coerceAnswer (aOpt : Option Js) : Str :=
  match aOpt with
  | some (.str s) => s
  | _ => if jsTruthy aOpt then jsToString (aOpt.getD .null) else []

/-- `Array.isArray(parsed.sources) ? parsed.sources : (parsed.sources ? [String(parsed.sources)] : [])`. -/
def coerceSources (sOpt : Option Js) : List Js :=
  match sOpt with
  | some (.arr xs) => xs
  | _ => if jsTruthy sOpt then [.str (jsToString (sOpt.getD .null))] else []

/-- `sources.length ? (['high','medium','low'].includes(parsed.confidence) ? parsed.confidence : 'medium') : 'low'`.
`includes` uses strict equality, so only string values can match. -/
def coerceConfidence (cOpt : Option Js) (sources : List Js) : Str :=
  match sources with
  | [] => levelLow
  | _ :: _ =>
    match cOpt with
    | some (.str c) => if c ∈ threeLevels then c else levelMedium
    | _ => levelMedium

/-- The successful-parse branch: coerce fields and truncate the answer. -/
def parsedResp (v : Js) : ChatResp :=
  let ss := coerceSources (jsGet v keySources)
  ⟨(coerceAnswer (jsGet v keyAnswer)).take 2000,
   coerceConfidence (jsGet v keyConfidence) ss,
   ss⟩

/-- The fallback branch: trimmed raw text truncated to 2000 characters, or the
fixed no-information message when that is empty; low confidence, no sources. -/
def fallbackResp (g : Str) : ChatResp :=
  let ft := (trimStr g).take 2000
  ⟨if ft = [] then noInfoMsg else ft, levelLow, []⟩

/-- The whole model-response parse: brace extraction, `JSON.parse`, coercion,
with the fallback on either failure. -/
def parseModelOutput (g : Str) : ChatResp :=
  match extractBraced g with
  | some ex =>
    match jsParse ex with
    | some v => parsedResp v
    | none => fallbackResp g
  | none => fallbackResp g

/-! ## The knowledge base and the two `buildContext` variants -/

/-- A knowledge snippet `{ id, text }`. -/
structure Snip where
  id : Str
  text : Str
deriving DecidableEq

/-- Pair every list element with its position.  A position tag stands for the
JavaScript object identity of the corresponding parsed KB entry: distinct
entries of the loaded array are distinct objects even when structurally
equal. -/
def withIdx : Nat → List α → List (Nat × α)
  | _, [] => []
  | n, x :: xs => (n, x) :: withIdx (n + 1) xs

/-- Score of one snippet (`maxChunks` variant): one point per distinct query
token of length > 2 occurring in the lowercased snippet text. -/
def scoreOf (tokens : List Str) (s : Snip) : Nat :=
  tokens.foldl
    (fun acc tok =>
      if tok.length > 2 ∧ containsSub (lowerStr s.text) tok then acc + 1 else acc)
    0

/-- The deduplicated tokens of the lowercased query. -/
def queryTokens (query : Str) : List Str := dedupFirst (tokenize (lowerStr query))

/-- Result of `buildContext`: the context block and the ordered source ids. -/
structure BuildCtx where
  context : Str
  sources : List Str

/-- One `[id] text` line of the context block. -/
def ctxLine (s : Snip) : Str := '[' :: s.id ++ ']' :: ' ' :: s.text

/-- The <code>[id] text</code> blocks joined by blank lines. -/
def joinCtx (l : List Snip) : Str := List.intercalate ['\n', '\n'] (l.map ctxLine)

/-! ### Simple variant (`src/api/chat.js`) -/

def kbLifeId : Str := "KB_LIFE".toList

def kbSuperpowerId : Str := "KB_SUPERPOWER".toList

/-- An item hits when some token of length > 2 occurs in its lowercased text
(the inner loop `break`s at the first such token).  The `Set` collects items
in kb order, so the hits are a filter of the indexed kb. -/
def hitsSimple (query : Str) (kb : List Snip) : List (Nat × Snip) :=
  (withIdx 0 kb).filter
    (fun p => (queryTokens query).any
      (fun tok => decide (tok.length > 2) && containsSub (lowerStr p.2.text) tok))

/-- `[life, superpower].filter(Boolean)`: the first `KB_LIFE` item and the
first `KB_SUPERPOWER` item, when present. -/
def anchorsSimple (kb : List Snip) : List (Nat × Snip) :=
  ((withIdx 0 kb).find? (fun p => p.2.id = kbLifeId)).toList ++
    ((withIdx 0 kb).find? (fun p => p.2.id = kbSuperpowerId)).toList

/-- `buildContext` of `src/api/chat.js`: anchors prepended to the hits, then
`[...new Set(...)]` dedup by object identity (= position tag). -/
def buildContextSimple (query : Str) (kb : List Snip) : BuildCtx :=
  let selected := dedupFirst (anchorsSimple kb ++ hitsSimple query kb)
  ⟨joinCtx (selected.map (·.2)), selected.map (·.2.id)⟩

/-! ### `maxChunks` variant (Gemini v2 handler)

`kb.map(item => ({...item, score}))` builds fresh clone objects, so the
`new Set` merge can never identify an anchor (a kb object) with its scored
clone.  `Sel` keeps the two kinds of objects apart exactly as the JavaScript
heap does. -/

/-- The anchor ids of the `maxChunks` variant. -/
def anchorIdsV2 : List Str :=
  ["KB_LIFE", "KB_SUPERPOWER", "KB_SKILLS", "KB_ARCHITECTURE"].map String.toList

/-- An object appearing in the merged selection: either an original kb entry
(an anchor) or a score-annotated clone produced by `kb.map`. -/
inductive Sel where
  | anc : Nat → Snip → Sel
  | hit : Nat → Snip → Nat → Sel
deriving DecidableEq

def Sel.snip : Sel → Snip
  | .anc _ s => s
  | .hit _ s _ => s

/-- The positively scored clones, in kb order. -/
def scoredV2 (query : Str) (kb : List Snip) : List (Nat × Snip × Nat) :=
  ((withIdx 0 kb).map (fun p => (p.1, p.2, scoreOf (queryTokens query) p.2))).filter
    (fun t => decide (t.2.2 > 0))

/-- Stable insertion into a descending-by-score list: equal scores keep the
original order, as the ECMAScript `sort` (stable) does with the comparator
`(a, b) => b.score - a.score`. -/
def insertDesc (x : Nat × Snip × Nat) : List (Nat × Snip × Nat) → List (Nat × Snip × Nat)
  | [] => [x]
  | y :: ys => if x.2.2 < y.2.2 then y :: insertDesc x ys else x :: y :: ys

/-- Stable sort, score descending. -/
def sortDesc (l : List (Nat × Snip × Nat)) : List (Nat × Snip × Nat) :=
  l.foldr insertDesc []

/-- The top `maxChunks` scored clones: `scored.slice(0, maxChunks)` after the
in-place descending sort. -/
def topScoredV2 (query : Str) (kb : List Snip) (maxChunks : Nat) : List (Nat × Snip × Nat) :=
  (sortDesc (scoredV2 query kb)).take maxChunks

/-- `kb.filter(k => ['KB_LIFE','KB_SUPERPOWER','KB_SKILLS','KB_ARCHITECTURE'].includes(k.id))`. -/
def anchorsV2 (kb : List Snip) : List (Nat × Snip) :=
  (withIdx 0 kb).filter (fun p => decide (p.2.id ∈ anchorIdsV2))

/-- `[...new Set([...anchors, ...scored.slice(0, maxChunks)])]`, with object
identity made explicit by `Sel`. -/
def mergedV2 (query : Str) (kb : List Snip) (maxChunks : Nat) : List Sel :=
  dedupFirst
    ((anchorsV2 kb).map (fun p => Sel.anc p.1 p.2) ++
      (topScoredV2 query kb maxChunks).map (fun t => Sel.hit t.1 t.2.1 t.2.2))

/-- `buildContext` of the Gemini v2 handler. -/
def buildContextV2 (query : Str) (kb : List Snip) (maxChunks : Nat) : BuildCtx :=
  let merged := mergedV2 query kb maxChunks
  if merged = [] then ⟨[], []⟩
  else ⟨joinCtx (merged.map Sel.snip), merged.map (fun m => m.snip.id)⟩

/-! ## Canned responses -/

def altsLife : List Str :=
  ["what should we know", "life story", "who are you", "bio",
   "tell me about yourself"].map String.toList

def altsSuper : List Str :=
  ["superpower", "super power", "strength", "best skill"].map String.toList

def altsArch : List Str :=
  ["how did you build", "tech stack", "how was this made", "architecture"].map String.toList

def altsGrow : List Str :=
  ["top 3", "areas to grow", "grow", "improve", "where do you want to grow"].map String.toList

def altsPush : List Str :=
  ["push your boundaries", "push boundaries", "challenge yourself", "push your limits",
   "stretch yourself"].map String.toList

def altsMis : List Str :=
  ["misconception", "what do people get wrong", "coworker", "misread you"].map String.toList

def altsInterests : List Str :=
  ["interests", "hobbies", "outside of work", "what do you like"].map String.toList

def altsRain : List Str := ["rainsafe", "flood"].map String.toList

def altsOva : List Str := ["ovabloom", "pcos"].map String.toList

/-- The ordered canned-response table of the Gemini v2 handler. -/
def cannedTableV2 : List (List Str × Str) :=
  [(altsLife, "KB_LIFE".toList),
   (altsSuper, "KB_SUPERPOWER".toList),
   (altsArch, "KB_ARCHITECTURE".toList),
   (altsGrow, "KB_GROW".toList),
   (altsPush, "KB_PUSH".toList),
   (altsMis, "KB_MISCONCEPTION".toList),
   (altsInterests, "KB_PERSONAL".toList),
   (altsRain, "KB_PROJECT_RAINSAFE".toList),
   (altsOva, "KB_PROJECT_OVABLOOM".toList)]

/-- The v2 canned loop: the first entry whose pattern matches AND whose
snippet id is present in the kb wins; a matching entry whose id is absent
does not stop the scan. -/
def cannedLookup (q : Str) (kb : List Snip) : List (List Str × Str) → Option (Str × Snip)
  | [] => none
  | (alts, i) :: rest =>
    if anyAlt alts q then
      match kb.find? (fun k => k.id = i) with
      | some hit => some (i, hit)
      | none => cannedLookup q kb rest
    else cannedLookup q kb rest

/-- `kb.find(k => k.id === i)?.text`. -/
def textOf (kb : List Snip) (i : Str) : Option Str :=
  (kb.find? (fun k => k.id = i)).map (·.text)

/-- JavaScript `a?.text || b?.text`: falls through on undefined or empty. -/
def orFalsy (a b : Option Str) : Option Str :=
  match a with
  | some t => if t = [] then b else some t
  | none => b

/-- One guard of the chat.js canned chain: `if (txt && re.test(q)) return ...`.
The guard also fails when the snippet text is the empty string (falsy). -/
def cannedTry (ot : Option Str) (alts : List Str) (q i : Str) : Option (Str × Str) :=
  match ot with
  | some t => if t ≠ [] ∧ anyAlt alts q then some (t, i) else none
  | none => none

/-- The canned chain of `src/api/chat.js` (answer text, source id). -/
def cannedSimple (q : Str) (kb : List Snip) : Option (Str × Str) :=
  cannedTry (textOf kb "KB_LIFE".toList) altsLife q "KB_LIFE".toList <|>
  cannedTry (textOf kb "KB_SUPERPOWER".toList) altsSuper q "KB_SUPERPOWER".toList <|>
  cannedTry (textOf kb "KB_GROW".toList) altsGrow q "KB_GROW".toList <|>
  cannedTry (textOf kb "KB_PUSH".toList) altsPush q "KB_PUSH".toList <|>
  cannedTry (textOf kb "KB_MISCONCEPTION".toList) altsMis q "KB_MISCONCEPTION".toList <|>
  cannedTry (orFalsy (textOf kb "KB_PERSONAL".toList) (textOf kb "KB_PERSONAL2".toList))
    altsInterests q "KB_PERSONAL".toList

/-! ## The chat handlers -/

/-- HTTP result: a 200 JSON envelope or an error JSON `\x7b error: msg \x7d`. -/
inductive HResp where
  | json : Nat → ChatResp → HResp
  | err : Nat → Str → HResp

/-- Outcome of the awaited upstream model call.  In the HF handler a non-ok
response yields 502; in the Gemini handler the SDK throws and the outer catch
yields 500.  On success the handler works from the extracted generated text,
which this parameter supplies. -/
inductive Upstream where
  | fail : Str → Upstream
  | ok : Str → Upstream

/-- `const { text } = req.body || {}` followed by
`!text || typeof text !== 'string' || text.trim().length === 0`:
`some s` exactly when the body has a string `text` that is not blank. -/
def bodyTextChat (body : Option Js) : Option Str :=
  match body with
  | some (.str s) => if trimStr s = [] then none else some s
  | _ => none

def msg405 : Str := "Method not allowed".toList

def msg400 : Str := "No question text provided".toList

def msg500 : Str := "Server not configured".toList

def msg502 : Str := "Model inference failed".toList

def msg500i : Str := "internal server error".toList

/-- The `src/api/chat.js` handler (HF variant), as a function of the request,
the loaded kb, the truthiness of `HF_API_TOKEN` / `HF_MODEL`, and the
upstream outcome. -/
def chatHandler (method : Str) (body : Option Js) (kb : List Snip)
    (tokenSet modelSet : Bool) (up : Upstream) : HResp :=
  if method ≠ "POST".toList then .err 405 msg405
  else
    match bodyTextChat body with
    | none => .err 400 msg400
    | some s =>
      match cannedSimple (lowerStr s) kb with
      | some (t, i) => .json 200 ⟨t, levelHigh, [.str i]⟩
      | none =>
        if (buildContextSimple s kb).sources = [] then
          .json 200 ⟨noInfoMsg, levelLow, []⟩
        else if !(tokenSet && modelSet) then .err 500 msg500
        else
          match up with
          | .fail _ => .err 502 msg502
          | .ok g => .json 200 (parseModelOutput g)

/-- The Gemini v2 handler: canned table, `maxChunks = 5` context, single
`GEMINI_API_KEY` requirement; an upstream failure surfaces as the catch-all
500 because the SDK throws. -/
def v2Handler (method : Str) (body : Option Js) (kb : List Snip)
    (keySet : Bool) (up : Upstream) : HResp :=
  if method ≠ "POST".toList then .err 405 msg405
  else
    match bodyTextChat body with
    | none => .err 400 msg400
    | some s =>
      match cannedLookup (lowerStr s) kb cannedTableV2 with
      | some (i, hit) => .json 200 ⟨hit.text, levelHigh, [.str i]⟩
      | none =>
        if (buildContextV2 s kb 5).sources = [] then
          .json 200 ⟨noInfoMsg, levelLow, []⟩
        else if !keySet then .err 500 msg500
        else
          match up with
          | .fail _ => .err 500 msg500i
          | .ok g => .json 200 (parseModelOutput g)

/-! ## The TTS handler with sanitization -/

/-- Outcome of the sanitizing TTS handler, up to the outbound fetch: either an
early response or the fetch being issued with the cleaned text.  The thrown
`TypeError` of `text.trim()` on a truthy non-string is the catch-all 500. -/
inductive TtsOutcome where
  | res : Nat → TtsOutcome
  | fetch : Str → TtsOutcome
deriving DecidableEq

/-- The sanitizing TTS handler: method check, non-emptiness check on the RAW
text, then cleaning, then the `ELEVENLABS_API_KEY` check, then the fetch with
the cleaned text. -/
def ttsCleanHandler (method : Str) (body : Option Js) (apiKeySet : Bool) : TtsOutcome :=
  if method ≠ "POST".toList then .res 405
  else
    match body with
    | some (.str s) =>
      if trimStr s = [] then .res 400
      else if !apiKeySet then .res 500
      else .fetch (cleanText s)
    | some v => if jsTruthy (some v) then .res 500 else .res 400
    | none => .res 400

/-! ## The inline fallback knowledge bases -/

/-- The `KB_LIFE` snippet text of the chat.js inline fallback kb. -/
def kbChatLifeText : Str :=
  "I am a fourth-year engineering student from Bengaluru who blends design and code.".toList

/-- The minimal inline kb of `src/api/chat.js`. -/
def kbChatFallback : List Snip :=
  [⟨"KB_LIFE".toList, kbChatLifeText⟩,
   ⟨"KB_SUPERPOWER".toList,
    "Superpower: creative problem-solving; combines design thinking with code to ship prototypes fast.".toList⟩,
   ⟨"KB_GROW".toList,
    "Wants to grow in backend systems & deployments, advanced ML/LLM tooling and RAG, and system design.".toList⟩,
   ⟨"KB_SKILLS".toList,
    "Skills: HTML, CSS, JavaScript, React, Node.js; Figma and UI/UX design interest.".toList⟩,
   ⟨"KB_TRAITS".toList,
    "I am creative, a fast learner, and enjoy working in groups.".toList⟩,
   ⟨"KB_AI".toList,
    "I have been dabbling in AI/ML because it is interesting and opens new ways to build helpful tools.".toList⟩]

/-- The `KB_LIFE` snippet text of the v2 inline fallback kb. -/
def kbV2LifeText : Str :=
  "I am Nitya, a fourth-year engineering student from Bengaluru with a creative mindset; I build frontends and explore AI/ML.".toList

/-- The full inline fallback kb of the Gemini v2 handler (first entries; the
later entries are carried verbatim from the source). -/
def kbV2Fallback : List Snip :=
  [⟨"KB_LIFE".toList, kbV2LifeText⟩,
   ⟨"KB_EDU".toList,
    "Education: B.E. in Computer Science; coursework includes data structures, networks, and fundamentals of machine learning.".toList⟩,
   ⟨"KB_SKILLS".toList,
    "Skills: HTML, CSS, JavaScript, React, Node.js, Tailwind, Figma, GSAP, Electron, and beginner Python for ML.".toList⟩,
   ⟨"KB_ARCHITECTURE".toList,
    "Architecture: React + Vite frontend, Vercel serverless backend, Gemini Pro for intelligence, in-memory RAG over the Nitya KB, and ElevenLabs for voice output.".toList⟩,
   ⟨"KB_PROJECT_OVABLOOM".toList,
    "OvaBloom: frontend contributor. A PCOS companion app with explainable ML risk assessment, privacy-first local storage, and lifestyle tips.".toList⟩,
   ⟨"KB_PROJECT_RAINSAFE".toList,
    "RainSafe: hyperlocal flood alert prototype using environmental data and ML risk scoring; integrates map APIs and sends alerts to at-risk users.".toList⟩,
   ⟨"KB_PROJECT_GAME".toList,
    "Magical ball game: Toy Story-inspired exploration + stealth mechanics where different sports balls have unique behaviours and hiding spots.".toList⟩,
   ⟨"KB_PROJECT_VOICENARY".toList,
    "Voicenary: AI Voice Chat Application connecting to external AI services (Bolt-AI, ElevenLabs) via REST APIs; frontend built with React and Tailwind and deployed on Netlify.".toList⟩,
   ⟨"KB_STYLE".toList,
    "Voice style: casual, friendly, concise, honest. I prefer shipping imperfect versions quickly and iterating on feedback.".toList⟩,
   ⟨"KB_SUPERPOWER".toList,
    "Superpower: creative problem solving combining UI/UX thinking with engineering to quickly prototype useful products.".toList⟩,
   ⟨"KB_GROW".toList,
    "Growth areas: backend systems and scalable deployments, advanced ML/LLM tooling and RAG pipelines, and system design for production apps.".toList⟩,
   ⟨"KB_WORK_PREF".toList,
    "Work preference: short collaborative sessions and early mockups for feedback rather than long solitary focus stints.".toList⟩,
   ⟨"KB_PERSONAL".toList,
    "Interests: UI/UX design, full-stack development, small creative projects, crocheting, and making aesthetic social content.".toList⟩,
   ⟨"KB_PERSONAL2".toList,
    "Personality: creative, fast learner, always curious about AI and new tech; enjoys multiple hobbies outside of work.".toList⟩,
   ⟨"KB_PUSH".toList,
    "I push my boundaries by shipping imperfect versions quickly, time-boxing experiments, asking for feedback early, and iterating fast to learn.".toList⟩,
   ⟨"KB_MISCONCEPTION".toList,
    "Misconception: people think I prefer working alone because I focus deeply, but I do my best work in short collaborative sessions with quick feedback.".toList⟩,
   ⟨"KB_TOOLING".toList,
    "Tooling: comfortable with React, Tailwind, Electron; learning Node.js backend and experimenting with embeddings and RAG.".toList⟩,
   ⟨"KB_RESUME_BULLET".toList,
    "Resume bullet: Built a voice-first interview demo (React + Web Speech API) with retrieval-augmented HF LLM and guardrails for truthful answers.".toList⟩,
   ⟨"KB_AVAIL".toList,
    "Availability: full-time student but can commit to project-based freelance or remote work; open to internships abroad.".toList⟩,
   ⟨"KB_FAQ".toList,
    "FAQ: If asked about my superpower I say creative problem solving; if asked about growth I mention backend, LLMs, and system design.".toList⟩,
   ⟨"KB_FAV_COLOR".toList,
    "Favorite color: pastel lavender and soft sage.".toList⟩,
   ⟨"KB_FAV_FOOD".toList,
    "Favorite food: masala dosa with coconut chutney; also loves dark chocolate as a snack.".toList⟩,
   ⟨"KB_PERSONALITY".toList,
    "Personality type: collaborative, optimistic, ENFP-leaning; ships fast, iterates, and learns by doing.".toList⟩,
   ⟨"KB_VALUES".toList,
    "Values: honesty, quick feedback loops, and building useful things that help people.".toList⟩,
   ⟨"KB_COMM".toList,
    "Communication: prefers concise, friendly, first-person responses and short calls or Looms over long threads.".toList⟩,
   ⟨"KB_TIME".toList,
    "Location/timezone: Bengaluru (IST); can adjust for remote collaboration with prior notice.".toList⟩,
   ⟨"KB_WEAKNESS".toList,
    "Current focus areas: strengthening backend depth and system design; avoids overcommitting by time-boxing work.".toList⟩]

/-! ## Concrete inputs used by witnesses and counterexamples -/

/-- The seven sanitizer patterns, in removal order. -/
def cleanPats : List Str :=
  [patFence, patTicks, patLB, patRB, patAnswer, patConf, patBackslashN]

/-- The backtick character. -/
def btick : Char := Char.ofNat 96

/-- A sanitizer input whose single cleaning splices three backticks together. -/
def spliceInput : Str := [btick, btick, lbrace, btick]

/-- A model output wrapping a well-formed envelope in extra prose. -/
def genEnvelope : Str :=
  "Sure! ".toList ++
    lbrace :: "\"answer\":\"hi\",\"confidence\":\"high\",\"sources\":[\"KB_LIFE\"]".toList ++
    [rbrace]

/-- The brace-delimited substring of `genEnvelope`. -/
def exEnvelope : Str :=
  lbrace :: "\"answer\":\"hi\",\"confidence\":\"high\",\"sources\":[\"KB_LIFE\"]".toList ++
    [rbrace]

/-- The parsed JSON value of `exEnvelope`. -/
def valEnvelope : Js :=
  Js.obj
    [(keyAnswer, .str "hi".toList),
     (keyConfidence, .str levelHigh),
     (keySources, .arr [.str "KB_LIFE".toList])]

/-- The interview scenario query. -/
def qLifeStory : Str := "What should we know about your life story?".toList

/-- A 2001-character snippet text, longer than the 2000-character answer cap. -/
def longText : Str := List.replicate 2001 'a'

/-- A one-snippet kb whose `KB_LIFE` text exceeds the answer cap. -/
def kbLong : List Snip := [⟨"KB_LIFE".toList, longText⟩]

/-- A one-snippet kb for the context-selector counterexamples. -/
def kbStory : List Snip := [⟨"KB_LIFE".toList, "life story".toList⟩]

/-- A one-snippet kb with a non-anchor id. -/
def kbDog : List Snip := [⟨"A".toList, "a dog".toList⟩]

/-! ## Helper lemmas -/

theorem dedupFirstAux_sub [DecidableEq α] (seen : List α) (l : List α) :
    ∀ x ∈ dedupFirstAux seen l, x ∈ l := by
  induction l generalizing seen with
  | nil => intro x hx; exact absurd hx (by simp [dedupFirstAux])
  | cons y ys ih =>
    intro x hx
    by_cases hy : y ∈ seen
    · simp only [dedupFirstAux, if_pos hy] at hx
      exact List.mem_cons_of_mem _ (ih seen x hx)
    · simp only [dedupFirstAux, if_neg hy, List.mem_cons] at hx
      rcases hx with h | h
      · exact h ▸ List.mem_cons_self _ _
      · exact List.mem_cons_of_mem _ (ih (y :: seen) x h)

theorem dedupFirst_sub [DecidableEq α] (l : List α) : ∀ x ∈ dedupFirst l, x ∈ l :=
  dedupFirstAux_sub [] l

theorem dedupFirstAux_filter [DecidableEq α] (seen : List α) (l : List α) (h : l.Nodup) :
    dedupFirstAux seen l = l.filter (fun x => decide (x ∉ seen)) := by
  induction l generalizing seen with
  | nil => rfl
  | cons x xs ih =>
    rcases List.nodup_cons.mp h with ⟨hx, hxs⟩
    by_cases hmem : x ∈ seen
    · rw [dedupFirstAux, if_pos hmem, ih seen hxs, List.filter_cons]
      simp [hmem]
    · rw [dedupFirstAux, if_neg hmem, ih (x :: seen) hxs, List.filter_cons]
      have hpos : (decide (x ∉ seen)) = true := by simp [hmem]
      rw [hpos]
      simp only [if_true]
      congr 1
      apply List.filter_congr
      intro y hy
      have hyx : y ≠ x := fun e => hx (e ▸ hy)
      simp [List.mem_cons, hyx]

theorem dedupFirstAux_append [DecidableEq α] (seen : List α) (a b : List α)
    (hsub : ∀ x ∈ a, x ∉ seen) (ha : a.Nodup) :
    dedupFirstAux seen (a ++ b) = a ++ dedupFirstAux (a.reverse ++ seen) b := by
  induction a generalizing seen with
  | nil => simp
  | cons x xs ih =>
    have hx : x ∉ seen := hsub x (List.mem_cons_self _ _)
    rcases List.nodup_cons.mp ha with ⟨hxx, hxs⟩
    rw [List.cons_append, dedupFirstAux, if_neg hx]
    rw [ih (x :: seen) (fun y hy => by
      simp only [List.mem_cons, not_or]
      exact ⟨fun e => hxx (e ▸ hy), hsub y (List.mem_cons_of_mem _ hy)⟩) hxs]
    simp [List.append_assoc]

theorem dedupFirst_append [DecidableEq α] (a b : List α) (ha : a.Nodup) (hb : b.Nodup) :
    dedupFirst (a ++ b) = a ++ b.filter (fun x => decide (x ∉ a)) := by
  rw [dedupFirst, dedupFirstAux_append [] a b (by simp) ha,
    dedupFirstAux_filter _ _ hb]
  congr 1
  apply List.filter_congr
  intro y _
  simp [List.mem_reverse]

theorem dedupFirst_eq_self [DecidableEq α] (l : List α) (h : l.Nodup) :
    dedupFirst l = l := by
  have := dedupFirst_append l [] h List.nodup_nil
  simpa using this

theorem dedupFirstAux_nodup [DecidableEq α] (seen : List α) (l : List α) :
    (dedupFirstAux seen l).Nodup ∧ ∀ x ∈ dedupFirstAux seen l, x ∉ seen := by
  induction l generalizing seen with
  | nil => exact ⟨List.nodup_nil, by simp [dedupFirstAux]⟩
  | cons x xs ih =>
    by_cases hmem : x ∈ seen
    · rw [dedupFirstAux, if_pos hmem]
      exact ih seen
    · rw [dedupFirstAux, if_neg hmem]
      rcases ih (x :: seen) with ⟨hnd, hnin⟩
      refine ⟨List.nodup_cons.mpr ⟨fun hx => ?_, hnd⟩, ?_⟩
      · exact hnin x hx (List.mem_cons_self _ _)
      · intro y hy
        rcases List.mem_cons.mp hy with h | h
        · exact h ▸ hmem
        · exact fun hs => hnin y h (List.mem_cons_of_mem _ hs)

theorem dedupFirst_nodup [DecidableEq α] (l : List α) : (dedupFirst l).Nodup :=
  (dedupFirstAux_nodup [] l).1

theorem withIdx_fst_ge (n : Nat) (l : List α) : ∀ p ∈ withIdx n l, n ≤ p.1 := by
  induction l generalizing n with
  | nil => intro p hp; exact absurd hp (by simp [withIdx])
  | cons x xs ih =>
    intro p hp
    rcases List.mem_cons.mp hp with h | h
    · simp [h]
    · exact Nat.le_of_succ_le (ih (n + 1) p h)

theorem withIdx_nodup (n : Nat) (l : List α) : (withIdx n l).Nodup := by
  induction l generalizing n with
  | nil => exact List.nodup_nil
  | cons x xs ih =>
    refine List.nodup_cons.mpr ⟨fun hmem => ?_, ih (n + 1)⟩
    have := withIdx_fst_ge (n + 1) xs _ hmem
    omega

theorem withIdx_mem_snd (n : Nat) (l : List α) : ∀ p ∈ withIdx n l, p.2 ∈ l := by
  induction l generalizing n with
  | nil => intro p hp; exact absurd hp (by simp [withIdx])
  | cons x xs ih =>
    intro p hp
    rcases List.mem_cons.mp hp with h | h
    · simp [h]
    · exact List.mem_cons_of_mem _ (ih (n + 1) p h)

/-- Under the data-model invariant that snippet ids are unique, two indexed kb
entries with the same id are the same entry. -/
theorem withIdx_id_inj (kb : List Snip) (hids : (kb.map Snip.id).Nodup) :
    ∀ n, ∀ p ∈ withIdx n kb, ∀ q ∈ withIdx n kb, p.2.id = q.2.id → p = q := by
  induction kb with
  | nil => intro n p hp; exact absurd hp (by simp [withIdx])
  | cons x xs ih =>
    intro n p hp q hq heq
    rw [List.map_cons, List.nodup_cons] at hids
    rcases hids with ⟨hxid, hxs⟩
    rcases List.mem_cons.mp hp with h1 | h1 <;> rcases List.mem_cons.mp hq with h2 | h2
    · rw [h1, h2]
    · exfalso
      apply hxid
      have := withIdx_mem_snd (n + 1) xs q h2
      rw [h1] at heq
      exact heq ▸ List.mem_map_of_mem Snip.id this
    · exfalso
      apply hxid
      have := withIdx_mem_snd (n + 1) xs p h1
      rw [h2] at heq
      exact heq ▸ List.mem_map_of_mem Snip.id this
    · exact ih hxs (n + 1) p h1 q h2 heq

theorem insertDesc_perm (x : Nat × Snip × Nat) (l : List (Nat × Snip × Nat)) :
    (insertDesc x l).Perm (x :: l) := by
  induction l with
  | nil => exact List.Perm.refl _
  | cons y ys ih =>
    rw [insertDesc]
    by_cases h : x.2.2 < y.2.2
    · rw [if_pos h]
      exact (ih.cons y).trans (List.Perm.swap x y ys)
    · rw [if_neg h]

theorem sortDesc_perm (l : List (Nat × Snip × Nat)) : (sortDesc l).Perm l := by
  induction l with
  | nil => exact List.Perm.refl _
  | cons x xs ih =>
    have : sortDesc (x :: xs) = insertDesc x (sortDesc xs) := rfl
    rw [this]
    exact (insertDesc_perm x (sortDesc xs)).trans (ih.cons x)

theorem replaceAllAux_of_not_sub (pat rep : Str) :
    ∀ fuel s, containsSub s pat = false → replaceAllAux pat rep fuel s = s := by
  intro fuel
  induction fuel with
  | zero => intro s _; rfl
  | succ f ih =>
    intro s h
    cases s with
    | nil => rfl
    | cons c cs =>
      rw [containsSub, Bool.or_eq_false_iff] at h
      simp only [replaceAllAux]
      rw [if_neg (fun hc => by rw [hc.1] at h; exact absurd h.1 (by simp)), ih cs h.2]

theorem replaceAll_of_not_sub (pat rep : Str) :
    ∀ s, containsSub s pat = false → replaceAll pat rep s = s :=
  fun s h => replaceAllAux_of_not_sub pat rep s.length s h

theorem dropWhile_dropWhile (p : α → Bool) (l : List α) :
    (l.dropWhile p).dropWhile p = l.dropWhile p := by
  induction l with
  | nil => rfl
  | cons a l ih =>
    by_cases h : p a
    · rw [List.dropWhile_cons, if_pos h, ih]
    · rw [List.dropWhile_cons, if_neg h, List.dropWhile_cons, if_neg h]

theorem dropWhile_head_false (p : α → Bool) (l : List α) (x : α) (xs : List α)
    (h : l.dropWhile p = x :: xs) : p x = false := by
  induction l with
  | nil => exact absurd h (by simp)
  | cons a l ih =>
    by_cases ha : p a
    · rw [List.dropWhile_cons, if_pos ha] at h
      exact ih h
    · rw [List.dropWhile_cons, if_neg ha] at h
      cases h
      exact Bool.not_eq_true _ ▸ (by simpa using ha)

theorem dropWhile_suffix_ex (p : α → Bool) (l : List α) :
    ∃ u, u ++ l.dropWhile p = l := by
  induction l with
  | nil => exact ⟨[], rfl⟩
  | cons a l ih =>
    by_cases ha : p a
    · rcases ih with ⟨u, hu⟩
      exact ⟨a :: u, by rw [List.dropWhile_cons, if_pos ha, List.cons_append, hu]⟩
    · exact ⟨[], by rw [List.dropWhile_cons, if_neg ha, List.nil_append]⟩

theorem trimStr_trimStr (s : Str) : trimStr (trimStr s) = trimStr s := by
  have key : ∀ t : Str, (trimStr t).dropWhile isWS = trimStr t → trimStr (trimStr t) = trimStr t := by
    intro t h
    rw [trimStr, h]
    show ((((t.dropWhile isWS).reverse.dropWhile isWS).reverse).reverse.dropWhile isWS).reverse
        = trimStr t
    rw [List.reverse_reverse, dropWhile_dropWhile, trimStr]
  apply key
  rcases hcase : trimStr s with _ | ⟨x, xs⟩
  · rfl
  · -- the trimmed string is a prefix of `dropWhile isWS s`, whose head is not WS
    rcases dropWhile_suffix_ex isWS (s.dropWhile isWS).reverse with ⟨u, hu⟩
    have hpre : (s.dropWhile isWS) = trimStr s ++ u.reverse := by
      have := congrArg List.reverse hu
      rw [List.reverse_append, List.reverse_reverse] at this
      rw [← this, trimStr]
    rw [hcase] at hpre
    have hx : isWS x = false := by
      apply dropWhile_head_false isWS s x (xs ++ u.reverse)
      rw [hpre, List.cons_append]
    rw [List.dropWhile_cons, if_neg (by simp [hx])]

/-- The trimmed result of the sanitizer is a fixed point of `trimStr`. -/
theorem cleanText_trim (s : Str) : trimStr (cleanText s) = cleanText s := by
  rw [cleanText, trimStr_trimStr]

theorem anchorsSimple_nodup (kb : List Snip) : (anchorsSimple kb).Nodup := by
  rw [anchorsSimple]
  rcases h1 : (withIdx 0 kb).find? (fun p => p.2.id = kbLifeId) with _ | a <;>
    rcases h2 : (withIdx 0 kb).find? (fun p => p.2.id = kbSuperpowerId) with _ | b <;>
    rw [h1, h2]
  · simp
  · simp
  · simp
  · have ha := List.find?_some h1
    have hb := List.find?_some h2
    simp only [decide_eq_true_eq] at ha hb
    simp only [Option.toList_some, List.singleton_append]
    refine List.nodup_cons.mpr ⟨?_, by simp⟩
    intro hmem
    rcases List.mem_cons.mp hmem with h | h
    · rw [h] at ha
      rw [ha] at hb
      exact absurd hb (by decide)
    · exact absurd h (by simp)

theorem anchorsSimple_mem_withIdx (kb : List Snip) :
    ∀ p ∈ anchorsSimple kb, p ∈ withIdx 0 kb := by
  intro p hp
  rw [anchorsSimple] at hp
  rcases List.mem_append.mp hp with h | h
  · rcases hf : (withIdx 0 kb).find? (fun p => p.2.id = kbLifeId) with _ | a
    · rw [hf] at h; exact absurd h (by simp)
    · rw [hf] at h
      simp only [Option.toList_some, List.mem_singleton] at h
      exact h ▸ List.mem_of_find?_eq_some hf
  · rcases hf : (withIdx 0 kb).find? (fun p => p.2.id = kbSuperpowerId) with _ | a
    · rw [hf] at h; exact absurd h (by simp)
    · rw [hf] at h
      simp only [Option.toList_some, List.mem_singleton] at h
      exact h ▸ List.mem_of_find?_eq_some hf

theorem hitsSimple_nodup (q : Str) (kb : List Snip) : (hitsSimple q kb).Nodup :=
  ((List.filter_sublist _).nodup (withIdx_nodup 0 kb))

theorem hitsSimple_mem_withIdx (q : Str) (kb : List Snip) :
    ∀ p ∈ hitsSimple q kb, p ∈ withIdx 0 kb := by
  intro p hp
  exact (List.mem_filter.mp hp).1

theorem withIdx_map_fst_nodup (n : Nat) (l : List α) :
    ((withIdx n l).map Prod.fst).Nodup := by
  induction l generalizing n with
  | nil => simp [withIdx]
  | cons x xs ih =>
    rw [withIdx, List.map_cons]
    refine List.nodup_cons.mpr ⟨?_, ih (n + 1)⟩
    intro hmem
    rcases List.mem_map.mp hmem with ⟨p, hp, hfst⟩
    have := withIdx_fst_ge (n + 1) xs p hp
    omega

theorem anchorsV2_nodup (kb : List Snip) : (anchorsV2 kb).Nodup :=
  (List.filter_sublist _).nodup (withIdx_nodup 0 kb)

theorem scoredV2_nodup (q : Str) (kb : List Snip) : (scoredV2 q kb).Nodup := by
  rw [scoredV2]
  apply (List.filter_sublist _).nodup
  apply List.Nodup.of_map Prod.fst
  have hmm : ((withIdx 0 kb).map
      (fun p => (p.1, p.2, scoreOf (queryTokens q) p.2))).map Prod.fst
      = (withIdx 0 kb).map Prod.fst := by
    rw [List.map_map]
    rfl
  rw [hmm]
  exact withIdx_map_fst_nodup 0 kb

theorem topScoredV2_nodup (q : Str) (kb : List Snip) (m : Nat) :
    (topScoredV2 q kb m).Nodup := by
  apply (List.take_sublist _ _).nodup
  exact ((sortDesc_perm (scoredV2 q kb)).nodup_iff).mpr (scoredV2_nodup q kb)

theorem mergedV2_eq (q : Str) (kb : List Snip) (m : Nat) :
    mergedV2 q kb m =
      (anchorsV2 kb).map (fun p => Sel.anc p.1 p.2) ++
        (topScoredV2 q kb m).map (fun t => Sel.hit t.1 t.2.1 t.2.2) := by
  rw [mergedV2]
  apply dedupFirst_eq_self
  refine List.Nodup.append ?_ ?_ ?_
  · refine (anchorsV2_nodup kb).map_on ?_
    intro x _ y _ h
    injection h with h1 h2
    exact Prod.ext h1 h2
  · refine (topScoredV2_nodup q kb m).map_on ?_
    intro x _ y _ h
    injection h with h1 h2 h3
    refine Prod.ext h1 (Prod.ext h2 h3)
  · intro a ha hb
    rcases List.mem_map.mp ha with ⟨p, _, hp⟩
    rcases List.mem_map.mp hb with ⟨t, _, ht⟩
    rw [← hp] at ht
    exact Sel.noConfusion ht

/-! ## C1 — anchor prepending and deduplication in the Context Selector -/

/-- C1 (counterexample).  The claim that no snippet id appears more than once
in the returned sources and that an anchor that also scored appears exactly
once is false for the `maxChunks` variant of `buildContext`: on the query
"story" against a kb whose only snippet is the `KB_LIFE` anchor with text
"life story", the anchor also scores, and its id is returned twice — once at
the anchor position and once as a scored hit — because the scored entries
are spread-clone objects that the `new Set` identity dedup never merges with
the anchor objects. -/
theorem c1_counterexample :
    (buildContextV2 "story".toList kbStory 5).sources =
      ["KB_LIFE".toList, "KB_LIFE".toList] ∧
    ¬ (buildContextV2 "story".toList kbStory 5).sources.Nodup := by
  constructor
  · rfl
  · decide

/-- C1 (amended).  In the simple variant (`src/api/chat.js`), provided the
snippet ids are unique (the data-model invariant), the sources are exactly
the anchor ids followed by the ids of the scored hits that are not anchors:
anchors first, in kb order, no id repeated, and an anchor that also scored
appears only at its anchor position.  In the `maxChunks` variant the
identity-based dedup never merges across the two groups: the sources are
always the anchor ids followed verbatim by the ids of the top scored clones,
so there an anchor that also scores within the top `maxChunks` appears
twice. -/
theorem c1_amended :
    (∀ q kb, (kb.map Snip.id).Nodup →
      (buildContextSimple q kb).sources =
        (anchorsSimple kb).map (fun p => p.2.id) ++
          ((hitsSimple q kb).filter
            (fun p => decide (p ∉ anchorsSimple kb))).map (fun p => p.2.id) ∧
      (buildContextSimple q kb).sources.Nodup) ∧
    (∀ q kb m, (buildContextV2 q kb m).sources =
      (anchorsV2 kb).map (fun p => p.2.id) ++
        (topScoredV2 q kb m).map (fun t => t.2.1.id)) := by
  constructor
  · intro q kb hids
    have hsel : (buildContextSimple q kb).sources =
        (dedupFirst (anchorsSimple kb ++ hitsSimple q kb)).map (fun p => p.2.id) := rfl
    have happ := dedupFirst_append (anchorsSimple kb) (hitsSimple q kb)
      (anchorsSimple_nodup kb) (hitsSimple_nodup q kb)
    constructor
    · rw [hsel, happ, List.map_append]
      congr 2
      apply List.filter_congr
      intro x _
      exact decide_eq_decide.mpr Iff.rfl
    · rw [hsel]
      apply List.Nodup.map_on
      · intro x hx y hy hxy
        have hx' := dedupFirst_sub _ x hx
        have hy' := dedupFirst_sub _ y hy
        have hmem : ∀ z, z ∈ anchorsSimple kb ++ hitsSimple q kb → z ∈ withIdx 0 kb := by
          intro z hz
          rcases List.mem_append.mp hz with h | h
          · exact anchorsSimple_mem_withIdx kb z h
          · exact hitsSimple_mem_withIdx q kb z h
        exact withIdx_id_inj kb hids 0 x (hmem x hx') y (hmem y hy') hxy
      · exact dedupFirst_nodup _
  · intro q kb m
    by_cases hm : mergedV2 q kb m = []
    · have hm2 := hm
      rw [mergedV2_eq] at hm2
      rcases List.append_eq_nil.mp hm2 with ⟨h1, h2⟩
      rw [List.map_eq_nil_iff] at h1 h2
      simp only [buildContextV2, if_pos hm]
      simp [h1, h2]
    · simp only [buildContextV2, if_neg hm]
      rw [mergedV2_eq, List.map_append, List.map_map, List.map_map]
      rfl

/-- C1 (witness for the amended theorem), at the query "story" over the
chat.js inline fallback kb, whose snippet ids are distinct. -/
theorem c1_amended_witness :
    (kbChatFallback.map Snip.id).Nodup ∧
    (buildContextSimple "story".toList kbChatFallback).sources =
      (anchorsSimple kbChatFallback).map (fun p => p.2.id) ++
        ((hitsSimple "story".toList kbChatFallback).filter
          (fun p => decide (p ∉ anchorsSimple kbChatFallback))).map (fun p => p.2.id) ∧
    (buildContextSimple "story".toList kbChatFallback).sources.Nodup :=
  ⟨by decide,
   (c1_amended.1 "story".toList kbChatFallback (by decide)).1,
   (c1_amended.1 "story".toList kbChatFallback (by decide)).2⟩

/-! ## C2 — short-token queries score nothing -/

theorem scoreOf_eq_zero (tokens : List Str) (s : Snip)
    (h : ∀ tok ∈ tokens, tok.length ≤ 2) : scoreOf tokens s = 0 := by
  rw [scoreOf]
  have aux : ∀ (ts : List Str) (acc : Nat), (∀ tok ∈ ts, tok.length ≤ 2) →
      ts.foldl (fun acc tok =>
        if tok.length > 2 ∧ containsSub (lowerStr s.text) tok then acc + 1 else acc) acc
        = acc := by
    intro ts
    induction ts with
    | nil => intro acc _; rfl
    | cons t ts ih =>
      intro acc ht
      rw [List.foldl_cons, if_neg (fun hc => by
        have := ht t (List.mem_cons_self _ _)
        omega)]
      exact ih acc (fun tok htok => ht tok (List.mem_cons_of_mem _ htok))
  exact aux tokens 0 h

/-- C2 (amended).  The scoring threshold in the source is token length
strictly greater than 2, so the claim holds with bound 2 instead of 3: when
every normalized token of the query has length at most 2, no snippet accrues
any score in either variant, and the returned sources are exactly the anchor
ids. -/
theorem c2_amended :
    ∀ q kb m, (∀ tok ∈ tokenize (lowerStr q), tok.length ≤ 2) →
      hitsSimple q kb = [] ∧
      scoredV2 q kb = [] ∧
      (buildContextSimple q kb).sources = (anchorsSimple kb).map (fun p => p.2.id) ∧
      (buildContextV2 q kb m).sources = (anchorsV2 kb).map (fun p => p.2.id) := by
  intro q kb m h
  have htok : ∀ tok ∈ queryTokens q, tok.length ≤ 2 :=
    fun tok htok => h tok (dedupFirst_sub _ tok htok)
  have hhits : hitsSimple q kb = [] := by
    rw [hitsSimple, List.filter_eq_nil_iff]
    intro p _ hany
    rcases List.any_eq_true.mp hany with ⟨tok, hmem, htrue⟩
    simp only [Bool.and_eq_true] at htrue
    rcases htrue with ⟨hlen, _⟩
    have h2 := htok tok hmem
    have h3 := of_decide_eq_true hlen
    omega
  have hscored : scoredV2 q kb = [] := by
    rw [scoredV2, List.filter_eq_nil_iff]
    intro t ht
    rcases List.mem_map.mp ht with ⟨p, _, hp⟩
    rw [← hp]
    simp only [decide_eq_true_eq]
    rw [scoreOf_eq_zero (queryTokens q) p.2 htok]
    omega
  refine ⟨hhits, hscored, ?_, ?_⟩
  · have hsel : (buildContextSimple q kb).sources =
        (dedupFirst (anchorsSimple kb ++ hitsSimple q kb)).map (fun p => p.2.id) := rfl
    rw [hsel, hhits, List.append_nil, dedupFirst_eq_self _ (anchorsSimple_nodup kb)]
  · have htop : topScoredV2 q kb m = [] := by
      rw [topScoredV2, hscored]
      simp [sortDesc]
    have := c1_amended.2 q kb m
    rw [this, htop]
    simp

/-- C2 (counterexample).  "dog" normalizes to the single token "dog" of
length 3 ≤ 3, yet it scores: with a kb holding one non-anchor snippet
"a dog", the hit list is non-empty, the scored list is non-empty, and the
returned sources are exactly the non-anchor id while the anchor set is
empty — contradicting "a query with no tokens of length greater than 3
yields zero scored hits" and "the result contains only the anchor
snippets". -/
theorem c2_counterexample :
    (∀ tok ∈ tokenize (lowerStr "dog".toList), tok.length ≤ 3) ∧
    hitsSimple "dog".toList kbDog ≠ [] ∧
    scoredV2 "dog".toList kbDog ≠ [] ∧
    (buildContextSimple "dog".toList kbDog).sources = ["A".toList] ∧
    anchorsSimple kbDog = [] := by
  refine ⟨by decide, by decide, by decide, by decide, by decide⟩

/-- C2 (witness for the amended theorem), at the query "hi yo" (all tokens of
length 2) over the chat.js inline fallback kb. -/
theorem c2_amended_witness :
    (∀ tok ∈ tokenize (lowerStr "hi yo".toList), tok.length ≤ 2) ∧
    (buildContextSimple "hi yo".toList kbChatFallback).sources =
      (anchorsSimple kbChatFallback).map (fun p => p.2.id) ∧
    (buildContextV2 "hi yo".toList kbChatFallback 5).sources =
      (anchorsV2 kbChatFallback).map (fun p => p.2.id) :=
  ⟨by decide,
   (c2_amended "hi yo".toList kbChatFallback 5 (by decide)).2.2.1,
   (c2_amended "hi yo".toList kbChatFallback 5 (by decide)).2.2.2⟩

/-! ## C3 — sanitizer idempotence -/

/-- C3 (counterexample).  The sanitizer is not idempotent: removing a later
pattern can splice together an occurrence of an earlier pattern.  On the
input backtick-backtick-brace-backtick, the brace removal creates a triple
backtick, so a single pass returns three backticks while a second pass
removes them. -/
theorem c3_counterexample :
    cleanText spliceInput = "```".toList ∧
    cleanText (cleanText spliceInput) = [] ∧
    cleanText (cleanText spliceInput) ≠ cleanText spliceInput := by
  refine ⟨by decide, by decide, by decide⟩

/-- C3 (amended).  Idempotence holds exactly on the inputs for which a single
pass eliminates every removable pattern: whenever the sanitized output
contains none of the seven patterns, a second application is the identity
(each removal is then a no-op and `trim` is idempotent).  In general a
removal can re-create an earlier-ordered pattern, so idempotence fails
(see the counterexample). -/
theorem c3_amended :
    ∀ s, (∀ p ∈ cleanPats, containsSub (cleanText s) p = false) →
      cleanText (cleanText s) = cleanText s := by
  intro s h
  have hf := replaceAll_of_not_sub patFence [] (cleanText s) (h patFence (by simp [cleanPats]))
  have ht := replaceAll_of_not_sub patTicks [] (cleanText s) (h patTicks (by simp [cleanPats]))
  have hl := replaceAll_of_not_sub patLB [] (cleanText s) (h patLB (by simp [cleanPats]))
  have hr := replaceAll_of_not_sub patRB [] (cleanText s) (h patRB (by simp [cleanPats]))
  have ha := replaceAll_of_not_sub patAnswer [] (cleanText s) (h patAnswer (by simp [cleanPats]))
  have hc := replaceAll_of_not_sub patConf [] (cleanText s) (h patConf (by simp [cleanPats]))
  have hn := replaceAll_of_not_sub patBackslashN [' '] (cleanText s)
    (h patBackslashN (by simp [cleanPats]))
  calc cleanText (cleanText s)
      = trimStr (replaceAll patBackslashN [' ']
          (replaceAll patConf []
            (replaceAll patAnswer []
              (replaceAll patRB []
                (replaceAll patLB []
                  (replaceAll patTicks []
                    (replaceAll patFence [] (cleanText s)))))))) := rfl
    _ = trimStr (cleanText s) := by rw [hf, ht, hl, hr, ha, hc, hn]
    _ = cleanText s := cleanText_trim s

/-- C3 (witness for the amended theorem): the sanitized form of a plain
sentence contains none of the seven patterns, so a second pass fixes it. -/
theorem c3_amended_witness :
    (∀ p ∈ cleanPats, containsSub (cleanText "hello world".toList) p = false) ∧
    cleanText (cleanText "hello world".toList) = cleanText "hello world".toList :=
  ⟨by decide, c3_amended "hello world".toList (by decide)⟩

/-! ## C4 — empty sources force low confidence -/

theorem parseModelOutput_cases (g : Str) :
    parseModelOutput g = fallbackResp g ∨ ∃ v, parseModelOutput g = parsedResp v := by
  cases h1 : extractBraced g with
  | none => left; simp only [parseModelOutput, h1]
  | some ex =>
    cases h2 : jsParse ex with
    | none => left; simp only [parseModelOutput, h1, h2]
    | some v => right; exact ⟨v, by simp only [parseModelOutput, h1, h2]⟩

theorem parseModelOutput_low (g : Str) :
    (parseModelOutput g).sources = [] → (parseModelOutput g).confidence = levelLow := by
  intro hs
  rcases parseModelOutput_cases g with h | ⟨v, h⟩
  · rw [h]
    rfl
  · rw [h] at hs ⊢
    show coerceConfidence (jsGet v keyConfidence) (coerceSources (jsGet v keySources))
        = levelLow
    have hss : coerceSources (jsGet v keySources) = [] := hs
    rw [hss]
    rfl

/-- C4 (confirmed).  Every 200 JSON response of either chat handler — canned,
empty-context short-circuit, parsed model output, or fallback — has
confidence "low" whenever its sources list is empty. -/
theorem c4_empty_sources_low_confidence :
    ∀ method body kb ts ms key up st r,
      (chatHandler method body kb ts ms up = .json st r →
        r.sources = [] → r.confidence = levelLow) ∧
      (v2Handler method body kb key up = .json st r →
        r.sources = [] → r.confidence = levelLow) := by
  intro method body kb ts ms key up st r
  constructor
  · intro h hs
    simp only [chatHandler] at h
    split at h
    · exact HResp.noConfusion h
    · split at h
      · exact HResp.noConfusion h
      · split at h
        · injection h with h1 h2
          rw [← h2] at hs
          exact absurd hs (by simp)
        · split at h
          · injection h with h1 h2
            rw [← h2]
          · split at h
            · exact HResp.noConfusion h
            · split at h
              · exact HResp.noConfusion h
              · injection h with h1 h2
                rw [← h2] at hs ⊢
                exact parseModelOutput_low _ hs
  · intro h hs
    simp only [v2Handler] at h
    split at h
    · exact HResp.noConfusion h
    · split at h
      · exact HResp.noConfusion h
      · split at h
        · injection h with h1 h2
          rw [← h2] at hs
          exact absurd hs (by simp)
        · split at h
          · injection h with h1 h2
            rw [← h2]
          · split at h
            · exact HResp.noConfusion h
            · split at h
              · exact HResp.noConfusion h
              · injection h with h1 h2
                rw [← h2] at hs ⊢
                exact parseModelOutput_low _ hs

/-- C4 (witness): a query hitting the empty-context short-circuit over an
empty kb yields a 200 response with empty sources, and the theorem gives
confidence "low". -/
theorem c4_witness :
    chatHandler "POST".toList (some (.str "zz qq".toList)) [] true true (.ok []) =
      .json 200 ⟨noInfoMsg, levelLow, []⟩ ∧
    (⟨noInfoMsg, levelLow, []⟩ : ChatResp).sources = [] ∧
    (⟨noInfoMsg, levelLow, []⟩ : ChatResp).confidence = levelLow :=
  ⟨by rfl, rfl,
   (c4_empty_sources_low_confidence "POST".toList (some (.str "zz qq".toList)) [] true true
      true (.ok []) 200 ⟨noInfoMsg, levelLow, []⟩).1 (by rfl) rfl⟩

/-! ## C5 — parser coercion and round-trip -/

theorem coerceConfidence_mem (cOpt : Option Js) (ss : List Js) :
    coerceConfidence cOpt ss ∈ threeLevels := by
  rw [coerceConfidence.eq_def]
  cases ss with
  | nil => simp [threeLevels]
  | cons x xs =>
    cases cOpt with
    | none => simp [threeLevels]
    | some v =>
      cases v with
      | str c =>
        show (if c ∈ threeLevels then c else levelMedium) ∈ threeLevels
        by_cases h : c ∈ threeLevels
        · rw [if_pos h]; exact h
        · rw [if_neg h]; simp [threeLevels]
      | null => simp [threeLevels]
      | bool b => simp [threeLevels]
      | num n => simp [threeLevels]
      | arr l => simp [threeLevels]
      | obj fs => simp [threeLevels]

/-- C5 (confirmed).  When the model output has a brace-delimited substring
that parses as JSON, the handler's parser returns the coerced envelope: the
confidence is one of the three levels (defaulting to medium when sources are
non-empty and the given confidence is not a valid level string, and to low
when sources are empty), the sources default to the empty list when no array
is given and the value is falsy, and the answer is truncated to 2000
characters.  When the parsed JSON already matches the envelope shape —
a string answer, an array of sources, a valid confidence level satisfying
the data-model invariant (low when sources are empty) — the parser
reproduces it, truncating the answer only when it exceeds 2000 characters. -/
theorem c5_parser_coercion :
    ∀ g ex v, extractBraced g = some ex → jsParse ex = some v →
      parseModelOutput g = parsedResp v ∧
      (parsedResp v).confidence ∈ threeLevels ∧
      (parsedResp v).answer.length ≤ 2000 ∧
      (parsedResp v).sources = coerceSources (jsGet v keySources) ∧
      ((parsedResp v).sources = [] → (parsedResp v).confidence = levelLow) ∧
      (jsGet v keySources = none → (parsedResp v).sources = []) ∧
      (∀ ans conf srcs,
        jsGet v keyAnswer = some (.str ans) →
        jsGet v keyConfidence = some (.str conf) →
        jsGet v keySources = some (.arr srcs) →
        conf ∈ threeLevels →
        (srcs = [] → conf = levelLow) →
        parsedResp v = ⟨ans.take 2000, conf, srcs⟩ ∧
        (ans.length ≤ 2000 → (parsedResp v).answer = ans)) := by
  intro g ex v h1 h2
  refine ⟨by simp only [parseModelOutput, h1, h2], coerceConfidence_mem _ _, ?_, rfl, ?_, ?_, ?_⟩
  · show ((coerceAnswer (jsGet v keyAnswer)).take 2000).length ≤ 2000
    rw [List.length_take]
    exact Nat.min_le_left _ _
  · intro hs
    show coerceConfidence (jsGet v keyConfidence) (coerceSources (jsGet v keySources))
        = levelLow
    have hss : coerceSources (jsGet v keySources) = [] := hs
    rw [hss]
    rfl
  · intro hnone
    show coerceSources (jsGet v keySources) = []
    rw [hnone]
    rfl
  · intro ans conf srcs hans hconf hsrcs hmem hinv
    have e1 : coerceAnswer (jsGet v keyAnswer) = ans := by rw [hans]; rfl
    have e2 : coerceSources (jsGet v keySources) = srcs := by rw [hsrcs]; rfl
    have e3 : coerceConfidence (jsGet v keyConfidence) srcs = conf := by
      rw [hconf, coerceConfidence.eq_def]
      cases srcs with
      | nil => exact (hinv rfl).symm
      | cons x xs =>
        show (if conf ∈ threeLevels then conf else levelMedium) = conf
        rw [if_pos hmem]
    have emain : parsedResp v = ⟨ans.take 2000, conf, srcs⟩ := by
      show (⟨(coerceAnswer (jsGet v keyAnswer)).take 2000,
             coerceConfidence (jsGet v keyConfidence) (coerceSources (jsGet v keySources)),
             coerceSources (jsGet v keySources)⟩ : ChatResp) = _
      rw [e1, e2, e3]
    refine ⟨emain, fun hlen => ?_⟩
    rw [emain]
    exact List.take_of_length_le hlen

/-- C5 (witness): a model output wrapping a well-formed envelope in prose
round-trips through the parser. -/
theorem c5_witness :
    parseModelOutput genEnvelope = ⟨"hi".toList, levelHigh, [Js.str "KB_LIFE".toList]⟩ := by
  have h := c5_parser_coercion genEnvelope exEnvelope valEnvelope (by rfl) (by rfl)
  have h2 := (h.2.2.2.2.2.2 "hi".toList levelHigh [Js.str "KB_LIFE".toList]
    (by rfl) (by rfl) (by rfl) (by decide) (fun hne => nomatch hne))
  rw [h.1, h2.1]
  rfl

/-! ## C6 — fallback on missing braces or parse failure -/

/-- C6 (amended).  When the model output has no brace-delimited substring, or
the extracted substring fails to parse as JSON, the parser falls back to the
raw trimmed text truncated to 2000 characters with confidence "low" and no
sources — except that when the trimmed text is empty the answer is the fixed
message "I don't have verified information in my sources." rather than the
(empty) raw trimmed text. -/
theorem c6_fallback :
    ∀ g, (extractBraced g = none ∨
        ∃ ex, extractBraced g = some ex ∧ jsParse ex = none) →
      parseModelOutput g = fallbackResp g ∧
      (parseModelOutput g).confidence = levelLow ∧
      (parseModelOutput g).sources = [] ∧
      ((trimStr g).take 2000 ≠ [] →
        (parseModelOutput g).answer = (trimStr g).take 2000) ∧
      ((trimStr g).take 2000 = [] → (parseModelOutput g).answer = noInfoMsg) := by
  intro g h
  have hfb : parseModelOutput g = fallbackResp g := by
    rcases h with h1 | ⟨ex, h1, h2⟩
    · simp only [parseModelOutput, h1]
    · simp only [parseModelOutput, h1, h2]
  refine ⟨hfb, by rw [hfb]; rfl, by rw [hfb]; rfl, ?_, ?_⟩
  · intro hne
    rw [hfb]
    show (if (trimStr g).take 2000 = [] then noInfoMsg else (trimStr g).take 2000)
        = (trimStr g).take 2000
    rw [if_neg hne]
  · intro heq
    rw [hfb]
    show (if (trimStr g).take 2000 = [] then noInfoMsg else (trimStr g).take 2000)
        = noInfoMsg
    rw [if_pos heq]

/-- C6 (counterexample).  On the empty model output (no brace-delimited
substring, empty trimmed text) the fallback answer is the fixed
no-information message, not the raw trimmed text. -/
theorem c6_counterexample :
    extractBraced ([] : Str) = none ∧
    trimStr ([] : Str) = [] ∧
    (parseModelOutput []).answer = noInfoMsg ∧
    (parseModelOutput []).answer ≠ trimStr ([] : Str) := by
  refine ⟨rfl, rfl, rfl, by decide⟩

/-- C6 (witness for the amended theorem), on a plain non-JSON model output. -/
theorem c6_witness :
    extractBraced "plain text".toList = none ∧
    parseModelOutput "plain text".toList = fallbackResp "plain text".toList ∧
    (parseModelOutput "plain text".toList).confidence = levelLow ∧
    (parseModelOutput "plain text".toList).sources = [] :=
  ⟨by rfl,
   (c6_fallback "plain text".toList (Or.inl (by rfl))).1,
   (c6_fallback "plain text".toList (Or.inl (by rfl))).2.1,
   (c6_fallback "plain text".toList (Or.inl (by rfl))).2.2.1⟩

/-! ## C7 — canned responses short-circuit the model call -/

/-- C7 (confirmed).  For a POST with valid text whose lowercased form hits
the canned table (first matching entry with an existing snippet wins, as
`cannedLookup` scans the table in order), the v2 handler returns that
snippet's text verbatim with confidence "high" and the single associated
source id — and the response is the same for every API-key configuration and
every upstream outcome, so no model call (and no context block) can
influence it. -/
theorem c7_canned_first_match :
    ∀ body kb s i hit keySet up,
      bodyTextChat body = some s →
      cannedLookup (lowerStr s) kb cannedTableV2 = some (i, hit) →
      v2Handler "POST".toList body kb keySet up =
        .json 200 ⟨hit.text, levelHigh, [.str i]⟩ := by
  intro body kb s i hit keySet up hbody hcanned
  simp only [v2Handler, hbody, hcanned]
  rw [if_neg (by simp)]

/-- C7 (witness): the interview query "What should we know about your life
story?" over the v2 inline fallback kb matches the life-story pattern first
and returns the `KB_LIFE` text verbatim, even with no API key configured. -/
theorem c7_witness :
    bodyTextChat (some (.str qLifeStory)) = some qLifeStory ∧
    cannedLookup (lowerStr qLifeStory) kbV2Fallback cannedTableV2 =
      some ("KB_LIFE".toList, ⟨"KB_LIFE".toList, kbV2LifeText⟩) ∧
    v2Handler "POST".toList (some (.str qLifeStory)) kbV2Fallback false (.ok []) =
      .json 200 ⟨kbV2LifeText, levelHigh, [.str "KB_LIFE".toList]⟩ :=
  ⟨by rfl, by rfl,
   c7_canned_first_match (some (.str qLifeStory)) kbV2Fallback qLifeStory
     "KB_LIFE".toList ⟨"KB_LIFE".toList, kbV2LifeText⟩ false (.ok [])
     (by rfl) (by rfl)⟩

/-! ## C8 — status codes of the chat handler -/

/-- C8 (counterexample).  The claim "500 for every request where the required
API key configuration is absent" is false: the configuration is only checked
after the canned-response table and the empty-context short-circuit, so the
canned query "bio" returns 200 with the `KB_LIFE` text even though neither
`HF_API_TOKEN` nor `HF_MODEL` is set. -/
theorem c8_counterexample :
    chatHandler "POST".toList (some (.str "bio".toList)) kbChatFallback false false (.ok []) =
      .json 200 ⟨kbChatLifeText, levelHigh, [.str "KB_LIFE".toList]⟩ ∧
    ∀ m, chatHandler "POST".toList (some (.str "bio".toList)) kbChatFallback false false
        (.ok []) ≠ .err 500 m := by
  have he : chatHandler "POST".toList (some (.str "bio".toList)) kbChatFallback false false
      (.ok []) = .json 200 ⟨kbChatLifeText, levelHigh, [.str "KB_LIFE".toList]⟩ := by rfl
  refine ⟨he, fun m h => ?_⟩
  rw [he] at h
  exact HResp.noConfusion h

/-- C8 (amended).  The chat handler's status codes, in check order: 405 for
a non-POST method; 400 for a POST whose body lacks a string `text` that is
non-blank after trimming; for a valid POST, a canned match returns 200 and an
empty retrieval context returns 200 before the configuration is consulted;
only then does a missing `HF_API_TOKEN`/`HF_MODEL` yield 500; and with
configuration present a successful upstream call yields 200 with an
answer/confidence/sources envelope.  (The catch-all 500 for a thrown
exception is outside this model; a non-ok upstream response yields 502.) -/
theorem c8_amended :
    ∀ method body kb ts ms up,
      (method ≠ "POST".toList →
        chatHandler method body kb ts ms up = .err 405 msg405) ∧
      (bodyTextChat body = none →
        chatHandler "POST".toList body kb ts ms up = .err 400 msg400) ∧
      (∀ s t i, bodyTextChat body = some s →
        cannedSimple (lowerStr s) kb = some (t, i) →
        chatHandler "POST".toList body kb ts ms up = .json 200 ⟨t, levelHigh, [.str i]⟩) ∧
      (∀ s, bodyTextChat body = some s →
        cannedSimple (lowerStr s) kb = none →
        (buildContextSimple s kb).sources = [] →
        chatHandler "POST".toList body kb ts ms up = .json 200 ⟨noInfoMsg, levelLow, []⟩) ∧
      (∀ s, bodyTextChat body = some s →
        cannedSimple (lowerStr s) kb = none →
        (buildContextSimple s kb).sources ≠ [] →
        (ts && ms) = false →
        chatHandler "POST".toList body kb ts ms up = .err 500 msg500) ∧
      (∀ s g, bodyTextChat body = some s →
        cannedSimple (lowerStr s) kb = none →
        (buildContextSimple s kb).sources ≠ [] →
        (ts && ms) = true → up = .ok g →
        chatHandler "POST".toList body kb ts ms up = .json 200 (parseModelOutput g)) := by
  intro method body kb ts ms up
  refine ⟨?_, ?_, ?_, ?_, ?_, ?_⟩
  · intro hm
    simp only [chatHandler, if_pos hm]
  · intro hb
    simp only [chatHandler, hb]
    rw [if_neg (by simp)]
  · intro s t i hb hc
    simp only [chatHandler, hb, hc]
    rw [if_neg (by simp)]
  · intro s hb hc hctx
    simp only [chatHandler, hb, hc, if_pos hctx]
    rw [if_neg (by simp)]
  · intro s hb hc hctx hcfg
    simp only [chatHandler, hb, hc, if_neg hctx, hcfg]
    rw [if_neg (by simp)]
    simp
  · intro s g hb hc hctx hcfg hup
    simp only [chatHandler, hb, hc, if_neg hctx, hcfg, hup]
    rw [if_neg (by simp)]
    simp

/-- C8 (witness for the amended theorem): a GET yields 405, and a valid
non-canned POST with a non-empty context but no configuration yields 500. -/
theorem c8_amended_witness :
    chatHandler "GET".toList none [] true true (.ok []) = .err 405 msg405 ∧
    chatHandler "POST".toList (some (.str "design and code".toList)) kbChatFallback false true
        (.ok []) = .err 500 msg500 :=
  ⟨(c8_amended "GET".toList none [] true true (.ok [])).1 (by decide),
   (c8_amended "POST".toList (some (.str "design and code".toList)) kbChatFallback false true
      (.ok [])).2.2.2.2.1 "design and code".toList (by rfl) (by rfl) (by decide) (by rfl)⟩

/-! ## C9 — canned answers are never truncated -/

/-- C9 (confirmed).  A canned match in the chat.js handler returns the
snippet text itself as the answer — no 2000-character truncation is applied
on this path, so the cap concerns only answers derived from model output. -/
theorem c9_canned_full_text :
    ∀ body kb s t i ts ms up,
      bodyTextChat body = some s →
      cannedSimple (lowerStr s) kb = some (t, i) →
      chatHandler "POST".toList body kb ts ms up = .json 200 ⟨t, levelHigh, [.str i]⟩ := by
  intro body kb s t i ts ms up hb hc
  simp only [chatHandler, hb, hc]
  rw [if_neg (by simp)]

/-- C9 (witness): with a 2001-character `KB_LIFE` snippet, the canned query
"bio" returns all 2001 characters — strictly more than the 2000-character
cap applied to model-derived answers. -/
theorem c9_witness :
    cannedSimple (lowerStr "bio".toList) kbLong = some (longText, "KB_LIFE".toList) ∧
    chatHandler "POST".toList (some (.str "bio".toList)) kbLong true true (.ok []) =
      .json 200 ⟨longText, levelHigh, [.str "KB_LIFE".toList]⟩ ∧
    2000 < longText.length :=
  ⟨by rfl,
   c9_canned_full_text (some (.str "bio".toList)) kbLong "bio".toList longText
     "KB_LIFE".toList true true (.ok []) (by rfl) (by rfl),
   by simp [longText]⟩

/-! ## C10 — the sanitizing TTS handler validates before cleaning -/

/-- C10 (confirmed).  The non-emptiness check runs on the raw text, before
cleaning: a POST whose text is non-blank but consists entirely of removable
patterns (so that cleaning empties it) is not rejected with 400 — with the
API key configured, the handler proceeds and sends the emptied text to the
speech endpoint. -/
theorem c10_tts_validates_before_cleaning :
    ∀ s, trimStr s ≠ [] → cleanText s = [] →
      ttsCleanHandler "POST".toList (some (.str s)) true = .fetch [] ∧
      ∀ n, ttsCleanHandler "POST".toList (some (.str s)) true ≠ .res n := by
  intro s htrim hclean
  have he : ttsCleanHandler "POST".toList (some (.str s)) true = .fetch [] := by
    simp only [ttsCleanHandler]
    rw [if_neg (by simp), if_neg htrim, if_neg (by simp), hclean]
  refine ⟨he, fun n h => ?_⟩
  rw [he] at h
  exact TtsOutcome.noConfusion h

/-- C10 (witness): the body text "\x7b\x7d" (a brace pair) is non-blank, is
emptied by the sanitizer, and is sent to the speech endpoint as the empty
string rather than rejected with 400. -/
theorem c10_witness :
    trimStr [lbrace, rbrace] ≠ [] ∧
    cleanText [lbrace, rbrace] = [] ∧
    ttsCleanHandler "POST".toList (some (.str [lbrace, rbrace])) true = .fetch [] :=
  ⟨by decide, by decide,
   (c10_tts_validates_before_cleaning [lbrace, rbrace] (by decide) (by decide)).1⟩
